import Mathlib

/-!
Shallow embedding of the thesis-data-pipeline repository (Rust) in Lean 4.

Conventions used throughout:
* Bytes are `Nat` (values < 256 in practice); byte strings are `List Nat`.
* Rust `usize` arithmetic is modelled by `Nat`; `u8` arithmetic that can wrap
  is modelled with explicit `% 256` (release-mode wrapping semantics; debug
  builds would panic at the same spots, noted where relevant).
* `f64` timestamps and `f32` durations are modelled by `ℚ` (the claims under
  study concern comparison/ordering logic, exercised here on exactly
  representable values).
* The `counter::Counter` type (a `HashMap`-backed multiset) is modelled by an
  association list in insertion order; the Rust iteration order of the
  underlying hash map is arbitrary, and insertion order is one realizable
  order (relevant only where the source iterates over `keys()`).
* `std::collections::BTreeMap<u8, usize>` is modelled by an association list
  kept sorted by key.
* External crates (`psl`, `fast_float`) are modelled as oracle parameters.
-/

/-! ## Multiset counters (`counter::Counter`, src/feature_extraction/state.rs) -/

abbrev Byte := Nat
abbrev Label := List Byte

/-- `DnsPayload` from src/parse_dns/mod.rs. -/
structure DnsPayload where
  labels : List Label
  payload_len : Nat
deriving DecidableEq, Repr

/-- First-match lookup in an association list (models `Counter::get_mut` hit/miss). -/
def cLookup (m : List (Label × Nat)) (k : Label) : Option Nat :=
  match m with
  | [] => none
  | (k', v) :: rest => if k = k' then some v else cLookup rest k

/-- Lookup for query-level counters keyed by label sequences. -/
def cqLookup (m : List (List Label × Nat)) (k : List Label) : Option Nat :=
  match m with
  | [] => none
  | (k', v) :: rest => if k = k' then some v else cqLookup rest k

/-- `Counter` increment: `*entry += 1` when present, `insert(k, 1)` when absent
(new keys appended, i.e. insertion order). -/
def cIncr (m : List (Label × Nat)) (k : Label) : List (Label × Nat) :=
  match m with
  | [] => [(k, 1)]
  | (k', v) :: rest => if k = k' then (k', v + 1) :: rest else (k', v) :: cIncr rest k

/-- Query-level counter increment. -/
def cqIncr (m : List (List Label × Nat)) (k : List Label) : List (List Label × Nat) :=
  match m with
  | [] => [(k, 1)]
  | (k', v) :: rest => if k = k' then (k', v + 1) :: rest else (k', v) :: cqIncr rest k

/-- The remove-side counter update of `WindowState::remove` (adapted from
`Counter::subtract` in the source): if the key is present with multiplicity
`≤ 1` it is removed (second component `true`); if present with larger
multiplicity it is decremented; if absent nothing happens. -/
def cDecr (m : List (Label × Nat)) (k : Label) : List (Label × Nat) × Bool :=
  match m with
  | [] => ([], false)
  | (k', v) :: rest =>
    if k = k' then
      if v ≤ 1 then (rest, true) else ((k', v - 1) :: rest, false)
    else
      let r := cDecr rest k
      ((k', v) :: r.1, r.2)

/-- Query-level counter decrement-or-remove. -/
def cqDecr (m : List (List Label × Nat)) (k : List Label) : List (List Label × Nat) × Bool :=
  match m with
  | [] => ([], false)
  | (k', v) :: rest =>
    if k = k' then
      if v ≤ 1 then (rest, true) else ((k', v - 1) :: rest, false)
    else
      let r := cqDecr rest k
      ((k', v) :: r.1, r.2)

/-- Membership test (models `Counter::contains_key`). -/
def cContains (m : List (Label × Nat)) (k : Label) : Bool :=
  match m with
  | [] => false
  | (k', _) :: rest => if k = k' then true else cContains rest k

/-! ## Entropy histograms of `WindowState` -/

/-- The fast-path alphabet `b'0'..=b'9' | b'a'..=b'z' | b'A'..=b'Z' | b'-' | b'_'`. -/
def isSafeByte (b : Byte) : Bool :=
  (48 ≤ b && b ≤ 57) || (97 ≤ b && b ≤ 122) || (65 ≤ b && b ≤ 90) || b == 45 || b == 95

/-- Point update of the `ascii_map : [usize; 128]` array (modelled as a list). -/
def listSet (l : List Nat) (i : Nat) (f : Nat → Nat) : List Nat :=
  match l, i with
  | [], _ => []
  | x :: rest, 0 => f x :: rest
  | x :: rest, n + 1 => x :: listSet rest n f

/-- `BTreeMap::entry(ch).or_insert(0)` followed by applying `f` to the value:
sorted-by-key association list, inserting the key with value `f 0` when absent.
Note that a key decremented to `0` stays in the map (as in the source). -/
def bUpd (m : List (Byte × Nat)) (k : Byte) (f : Nat → Nat) : List (Byte × Nat) :=
  match m with
  | [] => [(k, f 0)]
  | (k', v) :: rest =>
    if k < k' then (k, f 0) :: (k', v) :: rest
    else if k = k' then (k', f v) :: rest
    else (k', v) :: bUpd rest k f

/-! ## `WindowState` (src/feature_extraction/state.rs) -/

structure WindowState where
  n_queries : Nat
  unique_queries : List (List Label × Nat)
  n_labels : Nat
  unique_labels : List (Label × Nat)
  total_label_len : Nat
  total_unique_label_len : Nat
  total_unique_query_len : Nat
  max_label_len : Nat
  char_map : List (Byte × Nat)
  ascii_map : List Nat
deriving DecidableEq, Repr

/-- `WindowState::new`. -/
def WindowState.new : WindowState :=
  { n_queries := 0
    n_labels := 0
    total_label_len := 0
    total_unique_label_len := 0
    total_unique_query_len := 0
    max_label_len := 0
    unique_queries := []
    unique_labels := []
    char_map := []
    ascii_map := List.replicate 128 0 }

/-- Per-byte histogram update in `WindowState::add` (`+= 1` on the matching map). -/
def addChar (s : WindowState) (ch : Byte) : WindowState :=
  if isSafeByte ch then { s with ascii_map := listSet s.ascii_map ch (· + 1) }
  else { s with char_map := bUpd s.char_map ch (· + 1) }

/-- Per-byte histogram update in `WindowState::remove` (`-= 1`; note the source
uses `entry(ch).or_insert(0) -= 1`, so an absent key is inserted with value 0
and a key reaching 0 is not deleted). -/
def removeChar (s : WindowState) (ch : Byte) : WindowState :=
  if isSafeByte ch then { s with ascii_map := listSet s.ascii_map ch (· - 1) }
  else { s with char_map := bUpd s.char_map ch (· - 1) }

/-- Body of the per-label loop of `WindowState::add`. -/
def addLabel (s : WindowState) (label : Label) : WindowState :=
  let s1 := { s with total_label_len := s.total_label_len + label.length }
  let s2 :=
    if cContains s1.unique_labels label then s1
    else { s1 with total_unique_label_len := s1.total_unique_label_len + label.length }
  let s3 := { s2 with unique_labels := cIncr s2.unique_labels label }
  let s4 :=
    if label.length > s3.max_label_len then { s3 with max_label_len := label.length } else s3
  label.foldl addChar s4

/-- `WindowState::add`. -/
def WindowState.add (s : WindowState) (entry : DnsPayload) : WindowState :=
  let s1 := { s with n_queries := s.n_queries + 1 }
  let s2 :=
    match cqLookup s1.unique_queries entry.labels with
    | some _ => { s1 with unique_queries := cqIncr s1.unique_queries entry.labels }
    | none =>
      { s1 with
        unique_queries := s1.unique_queries ++ [(entry.labels, 1)]
        total_unique_query_len := s1.total_unique_query_len + entry.payload_len }
  let s3 := { s2 with n_labels := s2.n_labels + entry.labels.length }
  entry.labels.foldl addLabel s3

/-- Body of the per-label loop of `WindowState::remove`; the `Bool` component
threads the `update_max` flag. -/
def removeLabel (p : WindowState × Bool) (label : Label) : WindowState × Bool :=
  let s := p.1
  let update_max := p.2
  let s1 := { s with total_label_len := s.total_label_len - label.length }
  let r := cDecr s1.unique_labels label
  let s2 := { s1 with unique_labels := r.1 }
  let s3 :=
    if r.2 then { s2 with total_unique_label_len := s2.total_unique_label_len - label.length }
    else s2
  let update_max1 :=
    if r.2 && !update_max && label.length == s3.max_label_len then true else update_max
  (label.foldl removeChar s3, update_max1)

/-- The max-recomputation scan at the end of `WindowState::remove`:
`for l in keys { if l.len() >= old_max - 1 { max = l.len(); break }
else if l.len() > max { max = l.len() } }`. -/
def scanMax (oldMax : Nat) (acc : Nat) (keys : List Label) : Nat :=
  match keys with
  | [] => acc
  | l :: rest =>
    if l.length ≥ oldMax - 1 then l.length
    else if l.length > acc then scanMax oldMax l.length rest
    else scanMax oldMax acc rest

/-- `WindowState::remove`. -/
def WindowState.remove (s : WindowState) (removed : DnsPayload) : WindowState :=
  let s1 := { s with n_queries := s.n_queries - 1 }
  let r := cqDecr s1.unique_queries removed.labels
  let s2 := { s1 with unique_queries := r.1 }
  let s3 :=
    if r.2 then
      { s2 with total_unique_query_len := s2.total_unique_query_len - removed.payload_len }
    else s2
  let s4 := { s3 with n_labels := s3.n_labels - removed.labels.length }
  let p := removed.labels.foldl removeLabel (s4, false)
  if p.2 then
    { p.1 with max_label_len := scanMax p.1.max_label_len 0 (p.1.unique_labels.map Prod.fst) }
  else p.1

/-! ## Sliding windows (src/feature_extraction/sliding.rs) -/

/-- Wrapping `u8` subtraction (release semantics; a debug build panics where
the mathematical difference would be negative). Operands are reduced mod 256. -/
def u8sub (a b : Nat) : Nat := (a % 256 + 256 - b % 256) % 256

/-- Wrapping `u8` addition. -/
def u8add (a b : Nat) : Nat := (a % 256 + b % 256) % 256

/-- `open_space` as computed by `TimeWindow::new`: `253 - primary_domain_length - 1`
in `u8` arithmetic. -/
def openSpaceTime (pd : Nat) : Nat := u8sub (u8sub 253 pd) 1

/-- `open_space` as computed by `FixedWindow::new`: `253 - (primary_domain_length + 1)`
in `u8` arithmetic. -/
def openSpaceFixed (pd : Nat) : Nat := u8sub 253 (u8add pd 1)

structure TimeWindow where
  window_size : ℚ
  open_space : Nat
  content : List (ℚ × DnsPayload)
  window_state : WindowState

/-- `TimeWindow::new`. -/
def TimeWindow.new (duration : ℚ) (primary_domain_length : Nat) : TimeWindow :=
  { window_size := duration
    open_space := openSpaceTime primary_domain_length
    content := []
    window_state := WindowState.new }

/-- The eviction loop of `TimeWindow::process_entry`: pop front entries with
timestamp `< min_ts` (calling `WindowState::remove` on each), stopping at the
first entry still in range. -/
def evictLoop (minTs : ℚ) (content : List (ℚ × DnsPayload)) (s : WindowState) :
    List (ℚ × DnsPayload) × WindowState :=
  match content with
  | [] => ([], s)
  | front :: rest =>
    if front.1 ≥ minTs then (front :: rest, s)
    else evictLoop minTs rest (s.remove front.2)

/-- `TimeWindow::process_entry` (the returned floating-point feature vector is
a pure function of the resulting state and is not modelled; the `id` argument
only flows into that vector). -/
def TimeWindow.process_entry (w : TimeWindow) (ts : ℚ) (new_entry : DnsPayload) : TimeWindow :=
  let minTs := ts - w.window_size
  let r := evictLoop minTs w.content w.window_state
  { w with content := r.1 ++ [(ts, new_entry)], window_state := r.2.add new_entry }

/-- Processing a timestamped entry sequence through a `TimeWindow`
(as `TimeWindowFeatureVector::extract_for_domain` does record by record). -/
def TimeWindow.processAll (w : TimeWindow) (es : List (ℚ × DnsPayload)) : TimeWindow :=
  es.foldl (fun w e => w.process_entry e.1 e.2) w

structure FixedWindow where
  window_size : Nat
  open_space : Nat
  content : List DnsPayload
  window_state : WindowState

/-- `FixedWindow::new`. -/
def FixedWindow.new (size : Nat) (primary_domain_length : Nat) : FixedWindow :=
  { window_size := size
    open_space := openSpaceFixed primary_domain_length
    content := []
    window_state := WindowState.new }

/-- `FixedWindow::process_entry`. The source pops the front unconditionally
(`pop_front().unwrap()`) when `content.len() >= window_size`; the `[]` branch
below corresponds to the `unwrap` on an empty queue, reachable only for
`window_size = 0` (where the Rust code would panic) and modelled as a no-op. -/
def FixedWindow.process_entry (w : FixedWindow) (new_entry : DnsPayload) : FixedWindow :=
  let w1 :=
    if w.content.length ≥ w.window_size then
      match w.content with
      | p :: rest => { w with content := rest, window_state := w.window_state.remove p }
      | [] => w
    else w
  { w1 with content := w1.content ++ [new_entry], window_state := w1.window_state.add new_entry }

/-- Processing an entry sequence through a `FixedWindow`. -/
def FixedWindow.processAll (w : FixedWindow) (es : List DnsPayload) : FixedWindow :=
  es.foldl FixedWindow.process_entry w

/-! ## Hex escape decoding (src/parse_log/hex.rs) -/

/-- `byte_to_hex`. -/
def byte_to_hex (b : Byte) : Option Nat :=
  if 97 ≤ b && b ≤ 102 then some (10 + (b - 97))
  else if 65 ≤ b && b ≤ 70 then some (10 + (b - 65))
  else if 48 ≤ b && b ≤ 57 then some (b - 48)
  else none

/-- `parse_hex`. -/
def parse_hex (a b : Byte) : Option Nat :=
  match byte_to_hex a, byte_to_hex b with
  | some first, some second => some (16 * first + second)
  | _, _ => none

/-- The iterator loop of `decode_byte_escapes`. Note the faithful modelling of
the source in the branch where a backslash is followed by a byte other than
`x` (120): that byte has already been consumed by `it.next()` and only the
backslash is pushed, so the byte is dropped from the output. -/
def decodeLoop (input : List Byte) : List Byte :=
  match input with
  | [] => []
  | c :: rest =>
    if c ≠ 92 then c :: decodeLoop rest
    else
      match rest with
      | [] => [92]
      | x :: rest2 =>
        if x = 120 then
          match rest2 with
          | a :: b :: rest3 =>
            match parse_hex a b with
            | some hex => hex :: decodeLoop rest3
            | none => 92 :: 120 :: a :: b :: decodeLoop rest3
          | [a] => [92, 120, a]
          | [] => [92, 120]
        else 92 :: decodeLoop rest2

/-- `decode_byte_escapes`: fast path returns the input unchanged when it
contains no backslash; otherwise runs the decoding loop. Always `some`. -/
def decode_byte_escapes (input : List Byte) : Option (List Byte) :=
  if ¬ input.contains 92 then some input
  else some (decodeLoop input)

/-! ## DNS query parsing (src/parse_dns/mod.rs) -/

inductive ParseDnsError
  | QueryLength
  | InvalidDnsName
  | UnknownSuffix
  | ReservedSuffix
  | NoLabels
  | InvalidPrim
  | NoStorageChannel
deriving DecidableEq, Repr

/-- Result of `psl::List.domain(..)` followed by `.trim()`: the (trailing-dot
trimmed) registrable domain bytes, whether its suffix is a known public
suffix, and the suffix bytes. The `psl` crate is external to the repository,
so it is modelled as an oracle producing this data. -/
structure PslDomain where
  prim : List Byte
  suffixKnown : Bool
  suffix : List Byte
deriving DecidableEq, Repr

def TUNLAN : List Byte := [116, 117, 110, 46, 108, 97, 110]

def WWW : List Byte := [119, 119, 119]

/-- The `FILTER_TLD` deny-list, byte for byte. -/
def FILTER_TLD : List (List Byte) :=
  [ [97, 114, 112, 97],
    [108, 111, 99, 97, 108],
    [105, 110, 116, 114, 97, 110, 101, 116],
    [108, 97, 110],
    [108, 111, 99, 97, 108, 104, 111, 115, 116],
    [101, 120, 97, 109, 112, 108, 101, 46, 99, 111, 109],
    [101, 120, 97, 109, 112, 108, 101, 46, 110, 101, 116],
    [101, 120, 97, 109, 112, 108, 101, 46, 111, 114, 103],
    [105, 110, 116, 101, 114, 110, 97, 108],
    [112, 114, 105, 118, 97, 116, 101],
    [99, 111, 114, 112],
    [104, 111, 109, 101],
    [105, 110, 118, 97, 108, 105, 100],
    [116, 101, 115, 116],
    [101, 120, 97, 109, 112, 108, 101] ]

def isAlnumByte (b : Byte) : Bool :=
  (48 ≤ b && b ≤ 57) || (65 ≤ b && b ≤ 90) || (97 ≤ b && b ≤ 122)

def primBodyByte (b : Byte) : Bool := isAlnumByte b || b == 46 || b == 45

/-- The combined UTF-8 + `VALID_PRIM_RE` check of the source, expressed on
bytes. The regex `^(_?[a-zA-Z0-9]+[a-zA-Z0-9.-]*[a-zA-Z0-9]?)$` recognizes an
optional leading underscore, one alphanumeric, then any run over
`[a-zA-Z0-9.-]` (since the alphanumerics are a subset of that class,
`A+B*A?` collapses to `AB*`). All accepted characters are ASCII, so a match
implies UTF-8 validity; conversely a non-UTF-8 or non-matching byte string
fails with `InvalidPrim` either way in the source. -/
def validPrim (s : List Byte) : Bool :=
  match s with
  | [] => false
  | b :: rest =>
    if b = 95 then
      match rest with
      | [] => false
      | b' :: rest' => isAlnumByte b' && rest'.all primBodyByte
    else isAlnumByte b && rest.all primBodyByte

/-- The reserved-suffix test: some deny-list entry is a (byte) suffix of the
domain's public suffix (`domain.suffix().as_bytes().ends_with(tld)`). -/
def suffixReserved (d : PslDomain) : Bool :=
  FILTER_TLD.any (fun t => t.isSuffixOf d.suffix)

/-- `.split(|c| c == &LABEL_SEP)` on a byte slice: `n` separators yield `n+1`
(possibly empty) pieces. -/
def splitOnDot (bs : List Byte) : List (List Byte) :=
  match bs with
  | [] => [[]]
  | b :: rest =>
    if b = 46 then [] :: splitOnDot rest
    else
      match splitOnDot rest with
      | l :: ls => (b :: l) :: ls
      | [] => [[b]]

/-- The label-validation loop: rejects an empty or over-63-byte label with
`InvalidDnsName`, otherwise sums the label lengths. -/
def sumLabelLens (ls : List (List Byte)) : Except ParseDnsError Nat :=
  match ls with
  | [] => Except.ok 0
  | l :: rest =>
    if l.isEmpty || l.length > 63 then Except.error ParseDnsError.InvalidDnsName
    else
      match sumLabelLens rest with
      | Except.ok n => Except.ok (l.length + n)
      | Except.error e => Except.error e

/-- `parse_dns`, parameterized by the external `psl` lookup. The
`q_len - prim.len()` subtractions are `Nat`-truncated; an oracle returning a
`prim` longer than the query reaches the same `NoLabels` outcome as the
release build. `payload_len as u8` is the final `% 256`. -/
def parse_dns (psl : List Byte → Option PslDomain) (dns_query : List Byte) :
    Except ParseDnsError (List Byte × DnsPayload) :=
  let q_len := dns_query.length
  if q_len < 5 then Except.error ParseDnsError.QueryLength
  else if q_len > 255 then Except.error ParseDnsError.InvalidDnsName
  else
    match psl dns_query with
    | none => Except.error ParseDnsError.InvalidDnsName
    | some d =>
      if ¬ d.suffixKnown = true ∧ ¬ d.prim = TUNLAN then
        Except.error ParseDnsError.UnknownSuffix
      else if suffixReserved d = true ∧ ¬ d.prim = TUNLAN then
        Except.error ParseDnsError.ReservedSuffix
      else if ¬ validPrim d.prim = true then Except.error ParseDnsError.InvalidPrim
      else if q_len - d.prim.length = 0 then Except.error ParseDnsError.NoLabels
      else
        let labels_concat := dns_query.take (q_len - d.prim.length - 1)
        if labels_concat = [] then Except.error ParseDnsError.NoLabels
        else if labels_concat = WWW then Except.error ParseDnsError.NoStorageChannel
        else
          let labels := splitOnDot labels_concat
          match sumLabelLens labels with
          | Except.error e => Except.error e
          | Except.ok s =>
            Except.ok (d.prim, ⟨labels, (s + (labels.length - 1)) % 256⟩)

/-! ## Log-line parsing (src/parse_log/mod.rs) -/

inductive ParseLineError
  | SepNotFound
  | InvalidTimestamp
  | InvalidQuery
deriving DecidableEq, Repr

/-- `parse_log_line`, parameterized by the external `fast_float` parse: the
oracle returns `some ts` exactly when `fast_float::parse` succeeds with a
finite value (the `Ok(ts) if ts.is_finite()` guard). -/
def parse_log_line (parseFloat : List Byte → Option ℚ) (line : List Byte) (sep : Byte) :
    Except ParseLineError (ℚ × List Byte) :=
  match line.findIdx? (fun c => c == sep) with
  | none => Except.error ParseLineError.SepNotFound
  | some sep_index =>
    if line.length > sep_index then
      let ts_slice := line.take sep_index
      let q_slice := line.drop (sep_index + 1)
      match q_slice.getLast? with
      | some b =>
        if b = 10 then
          let q1 := q_slice.dropLast
          let q2 := if q1.getLast? = some 13 then q1.dropLast else q1
          match parseFloat ts_slice with
          | some ts =>
            match decode_byte_escapes q2 with
            | some query => Except.ok (ts, query)
            | none => Except.error ParseLineError.InvalidQuery
          | none => Except.error ParseLineError.InvalidTimestamp
        else Except.error ParseLineError.InvalidQuery
      | none => Except.error ParseLineError.InvalidQuery
    else Except.error ParseLineError.SepNotFound

/-! ## Preprocessing main loop, per-line step (src/bin/preprocessing/bin.rs) -/

structure PrimaryDomainStats where
  id : Nat
  length : Nat
  count : Nat
deriving DecidableEq, Repr

/-- State of the preprocessing loop: the record id counter, the primary-domain
id counter, and the primary-domain map (`HashMap`, modelled in insertion
order). -/
structure PreState where
  id : Nat
  prim_id_counter : Nat
  prim_map : List (List Byte × PrimaryDomainStats)
deriving DecidableEq, Repr

/-- An output record as serialized by the preprocessing loop. -/
structure OutRecord where
  id : Nat
  prim_id : Nat
  ts : ℚ
  payload : DnsPayload

def pmLookup (m : List (List Byte × PrimaryDomainStats)) (k : List Byte) :
    Option PrimaryDomainStats :=
  match m with
  | [] => none
  | (k', v) :: rest => if k = k' then some v else pmLookup rest k

def pmIncrCount (m : List (List Byte × PrimaryDomainStats)) (k : List Byte) :
    List (List Byte × PrimaryDomainStats) :=
  match m with
  | [] => []
  | (k', v) :: rest =>
    if k = k' then (k', { v with count := v.count + 1 }) :: rest
    else (k', v) :: pmIncrCount rest k

/-- One iteration of the preprocessing read loop (lines 116-148 of bin.rs):
parse the line, silently skip it on any parse error or a negative timestamp,
otherwise run `parse_dns`, get-or-insert the primary-domain stats entry, emit
one record and bump the counters. Returns the new state and the emitted
record, if any. -/
def processLine (parseFloat : List Byte → Option ℚ) (psl : List Byte → Option PslDomain)
    (st : PreState) (line : List Byte) : PreState × Option OutRecord :=
  match parse_log_line parseFloat line 9 with
  | Except.error _ => (st, none)
  | Except.ok (ts, query) =>
    if ts < 0 then (st, none)
    else
      match parse_dns psl query with
      | Except.error _ => (st, none)
      | Except.ok (primary_domain, payload) =>
        let prim_len := primary_domain.length % 256
        match pmLookup st.prim_map primary_domain with
        | some entry =>
          ({ st with id := st.id + 1, prim_map := pmIncrCount st.prim_map primary_domain },
           some ⟨st.id, entry.id, ts, payload⟩)
        | none =>
          ({ st with
              id := st.id + 1
              prim_id_counter := st.prim_id_counter + 1
              prim_map :=
                st.prim_map ++ [(primary_domain, ⟨st.prim_id_counter, prim_len, 1⟩)] },
           some ⟨st.id, st.prim_id_counter, ts, payload⟩)

/-! ## Concrete fixtures used in counterexamples and witnesses -/

/-- Timestamp of the last entry of a sequence (0 for the empty sequence). -/
def lastTs (es : List (ℚ × DnsPayload)) : ℚ :=
  match es with
  | [] => 0
  | [e] => e.1
  | _ :: rest => lastTs rest

/-- A 9-byte label `ccccccccc`. -/
def labC : Label := List.replicate 9 99

/-- A 10-byte label `bbbbbbbbbb`. -/
def labB : Label := List.replicate 10 98

/-- A 10-byte label `aaaaaaaaaa`. -/
def labA : Label := List.replicate 10 97

def payC : DnsPayload := ⟨[labC], 9⟩

def payB : DnsPayload := ⟨[labB], 10⟩

def payA : DnsPayload := ⟨[labA], 10⟩

/-- A reachable `WindowState` holding a 9-byte label and a 10-byte label,
inserted in that order. -/
def wsBase : WindowState := (WindowState.new.add payC).add payB

/-- A minimal payload with the single label `a`. -/
def pA : DnsPayload := ⟨[[97]], 1⟩

/-- A payload whose single label is the non-fast-path byte 33 (`!`), which
`add`/`remove` track in the `char_map` histogram. -/
def p33 : DnsPayload := ⟨[[33]], 1⟩

/-- A 253-byte primary domain: 249 `a`s followed by `.com`. -/
def c6prim : List Byte := List.replicate 249 97 ++ [46, 99, 111, 109]

/-- A 255-byte query `a.` ++ `c6prim`. -/
def c6query : List Byte := 97 :: 46 :: c6prim

/-- A `psl` oracle recognizing exactly `c6query`, with known suffix `com`. -/
def c6psl : List Byte → Option PslDomain :=
  fun q => if q = c6query then some ⟨c6prim, true, [99, 111, 109]⟩ else none

/-- The primary domain `example.com` as bytes. -/
def exPrim : List Byte := [101, 120, 97, 109, 112, 108, 101, 46, 99, 111, 109]

/-- The query `a..b.example.com` as bytes (its label portion `a..b` contains an
empty label). -/
def q8 : List Byte := [97, 46, 46, 98, 46, 101, 120, 97, 109, 112, 108, 101, 46, 99, 111, 109]

/-- A `psl` oracle recognizing exactly `q8`, with known suffix `com`. -/
def psl8 : List Byte → Option PslDomain :=
  fun q => if q = q8 then some ⟨exPrim, true, [99, 111, 109]⟩ else none

/-- The log line `-1<TAB>a<LF>` as bytes. -/
def line9 : List Byte := [45, 49, 9, 97, 10]

/-- A float-parse oracle mapping the bytes `-1` to the rational −1. -/
def pf9 : List Byte → Option ℚ :=
  fun s => if s = [45, 49] then some (-1) else none

/-- The log line `0<TAB>a` (no trailing newline) as bytes. -/
def line10 : List Byte := [48, 9, 97]

/-! ## Helper lemmas -/

theorem addChar_n_queries (s : WindowState) (ch : Byte) :
    (addChar s ch).n_queries = s.n_queries := by
  unfold addChar; split <;> rfl

theorem foldl_addChar_n_queries (l : Label) :
    ∀ s : WindowState, (l.foldl addChar s).n_queries = s.n_queries := by
  induction l with
  | nil => intro s; rfl
  | cons c rest ih => intro s; rw [List.foldl_cons, ih, addChar_n_queries]

theorem addLabel_n_queries (s : WindowState) (l : Label) :
    (addLabel s l).n_queries = s.n_queries := by
  unfold addLabel
  rw [foldl_addChar_n_queries]
  split <;> split <;> rfl

theorem foldl_addLabel_n_queries (ls : List Label) :
    ∀ s : WindowState, (ls.foldl addLabel s).n_queries = s.n_queries := by
  induction ls with
  | nil => intro s; rfl
  | cons l rest ih => intro s; rw [List.foldl_cons, ih, addLabel_n_queries]

/-- `WindowState::add` increments `n_queries` by exactly one. -/
theorem add_n_queries (s : WindowState) (e : DnsPayload) :
    (s.add e).n_queries = s.n_queries + 1 := by
  unfold WindowState.add
  rw [foldl_addLabel_n_queries]
  split <;> rfl

theorem removeChar_n_queries (s : WindowState) (ch : Byte) :
    (removeChar s ch).n_queries = s.n_queries := by
  unfold removeChar; split <;> rfl

theorem foldl_removeChar_n_queries (l : Label) :
    ∀ s : WindowState, (l.foldl removeChar s).n_queries = s.n_queries := by
  induction l with
  | nil => intro s; rfl
  | cons c rest ih => intro s; rw [List.foldl_cons, ih, removeChar_n_queries]

theorem removeLabel_n_queries (p : WindowState × Bool) (l : Label) :
    (removeLabel p l).1.n_queries = p.1.n_queries := by
  unfold removeLabel
  dsimp only
  rw [foldl_removeChar_n_queries]
  split <;> rfl

theorem foldl_removeLabel_n_queries (ls : List Label) :
    ∀ p : WindowState × Bool, (ls.foldl removeLabel p).1.n_queries = p.1.n_queries := by
  induction ls with
  | nil => intro p; rfl
  | cons l rest ih => intro p; rw [List.foldl_cons, ih, removeLabel_n_queries]

/-- `WindowState::remove` decrements `n_queries` by exactly one
(`Nat`-truncated at zero, where the Rust build would underflow). -/
theorem remove_n_queries (s : WindowState) (e : DnsPayload) :
    (s.remove e).n_queries = s.n_queries - 1 := by
  unfold WindowState.remove
  dsimp only
  split <;> split <;> simp [foldl_removeLabel_n_queries]

/-- If some label in the list is empty or longer than 63 bytes, the
label-validation loop fails with `InvalidDnsName`. -/
theorem sumLabelLens_bad (ls : List (List Byte))
    (h : ∃ l ∈ ls, l = [] ∨ l.length > 63) :
    sumLabelLens ls = Except.error ParseDnsError.InvalidDnsName := by
  induction ls with
  | nil => simp at h
  | cons l rest ih =>
    unfold sumLabelLens
    by_cases hl : l.isEmpty || l.length > 63
    · simp [hl]
    · have hrest : ∃ x ∈ rest, x = [] ∨ x.length > 63 := by
        rcases h with ⟨x, hx, hbad⟩
        rcases List.mem_cons.mp hx with rfl | hx'
        · exfalso
          rcases hbad with h0 | h63
          · subst h0; simp at hl
          · simp [h63] at hl
        · exact ⟨x, hx', hbad⟩
      rw [ih hrest]
      simp [hl]

/-! ## Claim theorems -/

/-- C1. The claim states that `add` and `remove` are exact inverses: after a
matched set of `add`/`remove` calls of the same payload every `WindowState`
field returns to its pre-sequence value. The code violates this: starting
from the reachable state `wsBase` (a 9-byte label then a 10-byte label,
`max_label_len = 10`), a single `add` followed by the matching `remove` of a
fresh 10-byte-label payload drops `max_label_len` to 9, because the removal
scan short-circuits on the 9-byte label before seeing the surviving 10-byte
one. Independently, an `add`/`remove` pair of a payload whose label holds the
non-fast-path byte 33 leaves the `char_map` histogram holding that key with
count 0 instead of restoring the empty map. -/
theorem C1_add_remove_not_exact_inverse :
    wsBase.max_label_len = 10
    ∧ ((wsBase.add payA).remove payA).max_label_len = 9
    ∧ WindowState.new.char_map = []
    ∧ ((WindowState.new.add ⟨[[33]], 1⟩).remove ⟨[[33]], 1⟩).char_map = [(33, 0)] :=
  ⟨by decide, by decide, rfl, by decide⟩

/-- C2. The claim states that after `remove` the short-circuit recomputation
of `max_label_len` yields the true maximum over the surviving unique labels in
all cases. It does not: in the state reached by adding single-label payloads
with labels of lengths 9, 10 and 10 (in that insertion order) and removing the
last one, the surviving unique labels have lengths 9 and 10 (true maximum 10),
but the scan accepts the 9-byte label (length ≥ old_max − 1) and stores 9. -/
theorem C2_max_recompute_incorrect :
    ((wsBase.add payA).remove payA).unique_labels.map (fun kv => kv.1.length) = [9, 10]
    ∧ ((wsBase.add payA).remove payA).max_label_len = 9 :=
  ⟨by decide, by decide⟩

/-- C5. The claim states every malformed escape — including a backslash not
followed by `x` — passes through unchanged. The code instead consumes and
drops the byte following such a backslash: the two-byte input `\a`
(`[92, 97]`) decodes to the single byte `[92]`, losing the `a`. -/
theorem C5_lone_backslash_drops_next_byte :
    decode_byte_escapes [92, 97] = some [92] := by decide

/-- C7. Every input shorter than 5 bytes is rejected with `QueryLength`, and
every input longer than 255 bytes is rejected (with `InvalidDnsName`, from the
length filter at the head of the chain), for every `psl` oracle. -/
theorem C7_length_filters (psl : List Byte → Option PslDomain) (q : List Byte) :
    (q.length < 5 → parse_dns psl q = Except.error ParseDnsError.QueryLength)
    ∧ (q.length > 255 → parse_dns psl q = Except.error ParseDnsError.InvalidDnsName) := by
  constructor
  · intro h
    simp only [parse_dns]
    rw [if_pos h]
  · intro h
    have h5 : ¬ q.length < 5 := by omega
    simp only [parse_dns]
    rw [if_neg h5, if_pos h]

/-- Witness for C7 at the concrete inputs `[]` (length 0) and a 256-byte
query. -/
theorem C7_length_filters_witness :
    parse_dns (fun _ => none) [] = Except.error ParseDnsError.QueryLength
    ∧ parse_dns (fun _ => none) (List.replicate 256 97)
        = Except.error ParseDnsError.InvalidDnsName :=
  ⟨(C7_length_filters (fun _ => none) []).1 (by decide),
   (C7_length_filters (fun _ => none) (List.replicate 256 97)).2
     (by rw [List.length_replicate]; omega)⟩

/-- C8. For a query that passes the length, suffix, primary-domain, non-empty
label portion and `www` filters, if splitting the label portion on `.` yields
any label that is empty or longer than 63 bytes, `parse_dns` fails with
`InvalidDnsName`. -/
theorem C8_bad_label_invalid_dns_name (psl : List Byte → Option PslDomain)
    (q : List Byte) (d : PslDomain)
    (h5 : ¬ q.length < 5) (h255 : ¬ q.length > 255)
    (hpsl : psl q = some d)
    (hsuf : ¬ (¬ d.suffixKnown = true ∧ ¬ d.prim = TUNLAN))
    (hres : ¬ (suffixReserved d = true ∧ ¬ d.prim = TUNLAN))
    (hvp : validPrim d.prim = true)
    (hq0 : ¬ (q.length - d.prim.length = 0))
    (hlc : ¬ (q.take (q.length - d.prim.length - 1) = []))
    (hwww : ¬ (q.take (q.length - d.prim.length - 1) = WWW))
    (hbad : ∃ l ∈ splitOnDot (q.take (q.length - d.prim.length - 1)),
      l = [] ∨ l.length > 63) :
    parse_dns psl q = Except.error ParseDnsError.InvalidDnsName := by
  have hsum := sumLabelLens_bad _ hbad
  have hvp' : ¬ (¬ validPrim d.prim = true) := fun hn => hn hvp
  simp only [parse_dns, hpsl]
  rw [if_neg h5, if_neg h255, if_neg hsuf, if_neg hres, if_neg hvp', if_neg hq0,
    if_neg hlc, if_neg hwww, hsum]

/-- Witness for C8 at the concrete query `a..b.example.com`, whose label
portion `a..b` splits into a list containing an empty label. -/
theorem C8_bad_label_witness :
    parse_dns psl8 q8 = Except.error ParseDnsError.InvalidDnsName :=
  C8_bad_label_invalid_dns_name psl8 q8 ⟨exPrim, true, [99, 111, 109]⟩
    (by decide) (by decide) (by decide) (by decide) (by decide) (by decide)
    (by decide) (by decide) (by decide)
    ⟨[], by decide, Or.inl rfl⟩

/-- `decode_byte_escapes` returns `some` on every input. -/
theorem decode_total (s : List Byte) : ∃ r, decode_byte_escapes s = some r := by
  unfold decode_byte_escapes
  split
  · exact ⟨s, rfl⟩
  · exact ⟨decodeLoop s, rfl⟩

set_option maxRecDepth 8000 in
/-- C6 counterexample. The parsing stage can produce a primary domain of
length 253 (a 255-byte query whose label portion is the single label `a`),
and for that length neither window constructor stores `253 − (pd + 1)`:
the `u8` arithmetic wraps to 255 (a debug build would panic on the
underflow/overflow instead). -/
theorem C6_open_space_wraps_at_253 :
    parse_dns c6psl c6query = Except.ok (c6prim, ⟨[[97]], 1⟩)
    ∧ c6prim.length = 253
    ∧ (TimeWindow.new 1 253).open_space = 255
    ∧ (FixedWindow.new 2 253).open_space = 255
    ∧ ((255 : Int) ≠ 253 - (253 + 1)) := by
  refine ⟨rfl, ?_, rfl, rfl, by decide⟩
  simp [c6prim, List.length_append, List.length_replicate]

/-- C6 amended: for every primary-domain length up to 252 (the largest value
for which the `u8` expressions do not wrap), both `TimeWindow::new` and
`FixedWindow::new` store `open_space = 253 − (pd + 1)`. -/
theorem C6_open_space_formula (D : ℚ) (N pd : Nat) (hpd : pd ≤ 252) :
    (TimeWindow.new D pd).open_space = 253 - (pd + 1)
    ∧ (FixedWindow.new N pd).open_space = 253 - (pd + 1) := by
  constructor
  · show openSpaceTime pd = 253 - (pd + 1)
    unfold openSpaceTime u8sub
    omega
  · show openSpaceFixed pd = 253 - (pd + 1)
    unfold openSpaceFixed u8sub u8add
    omega

/-- Witness for C6 (amended) at `pd = 10`. -/
theorem C6_open_space_formula_witness :
    (TimeWindow.new 1 10).open_space = 253 - (10 + 1)
    ∧ (FixedWindow.new 2 10).open_space = 253 - (10 + 1) :=
  C6_open_space_formula 1 2 10 (by omega)

/-- C9. A line whose timestamp parses (finite) but is strictly negative is
silently dropped by the preprocessing loop: the state (id counter,
primary-domain counter and map) is unchanged and no record is emitted. -/
theorem C9_negative_timestamp_dropped (pf : List Byte → Option ℚ)
    (psl : List Byte → Option PslDomain) (st : PreState) (line : List Byte)
    (ts : ℚ) (q : List Byte)
    (hok : parse_log_line pf line 9 = Except.ok (ts, q)) (hneg : ts < 0) :
    processLine pf psl st line = (st, none) := by
  unfold processLine
  rw [hok]
  dsimp only
  rw [if_pos hneg]

/-- Witness for C9 at the concrete line `-1<TAB>a<LF>`. -/
theorem C9_negative_timestamp_dropped_witness :
    processLine pf9 (fun _ => none) ⟨0, 0, []⟩ line9 = (⟨0, 0, []⟩, none) :=
  C9_negative_timestamp_dropped pf9 (fun _ => none) ⟨0, 0, []⟩ line9 (-1) [97]
    (by rfl) (by norm_num)

/-- C10. `decode_byte_escapes` is total (never `none`), so the
`InvalidQuery` branch of `parse_log_line` guarded by the decoder returning
`none` is unreachable: whenever `parse_log_line` returns `InvalidQuery`, the
separator was found at some index and the query slice after it has no
trailing newline byte. -/
theorem C10_invalid_query_only_missing_newline :
    (∀ s : List Byte, ∃ r, decode_byte_escapes s = some r)
    ∧ ∀ (pf : List Byte → Option ℚ) (line : List Byte) (sep : Byte),
        parse_log_line pf line sep = Except.error ParseLineError.InvalidQuery →
        ∃ i, line.findIdx? (fun c => c == sep) = some i
          ∧ ¬ (line.drop (i + 1)).getLast? = some 10 := by
  refine ⟨decode_total, ?_⟩
  intro pf line sep h
  unfold parse_log_line at h
  split at h
  · exact absurd h (by simp)
  case h_2 idx hidx =>
    split at h
    case isTrue hlen =>
      dsimp only at h
      split at h
      case h_1 b hlast =>
        split at h
        case isTrue hb =>
          split at h
          case h_1 ts hts =>
            split at h
            case h_1 r hdec =>
              exact absurd h (by simp)
            case h_2 hdec =>
              obtain ⟨r, hr⟩ := decode_total _
              rw [hr] at hdec
              cases hdec
          case h_2 hts =>
            exact absurd h (by simp)
        case isFalse hb =>
          refine ⟨idx, hidx, ?_⟩
          rw [hlast]
          simp [hb]
      case h_2 hlast =>
        refine ⟨idx, hidx, ?_⟩
        rw [hlast]
        simp
    case isFalse hlen =>
      exact absurd h (by simp)

/-- Witness for C10 at the concrete line `0<TAB>a` (no trailing newline). -/
theorem C10_invalid_query_only_missing_newline_witness :
    ∃ i, line10.findIdx? (fun c => c == 9) = some i
      ∧ ¬ (line10.drop (i + 1)).getLast? = some 10 :=
  C10_invalid_query_only_missing_newline.2 (fun _ => some 0) line10 9 (by rfl)

/-- C3 counterexample, refuting the claim on both of its bounds. First, with
duration `D = 1`, after processing an entry at `t = 0` and then an entry at
`t = 1` (so the later entry's timestamp equals `t + D` exactly), the first
entry is still in the content queue and still counted by the window state:
the claim's `≥ t + D` exclusion bound is wrong at equality (the repository's
own `expire_time` test asserts this retention). Second, even an entry that is
evicted (here at `t = 0` with a later entry at `t = 2 > t + D`, whose label
holds the non-fast-path byte 33) is not excluded from the aggregate window
state: the final `char_map` histogram still holds the key 33 (with count 0),
unlike the state of a window that never saw that entry. -/
theorem C3_boundary_entry_not_excluded :
    ((TimeWindow.new 1 10).processAll [(0, pA), (1, pA)]).content = [(0, pA), (1, pA)]
    ∧ ((TimeWindow.new 1 10).processAll [(0, pA), (1, pA)]).window_state.n_queries = 2
    ∧ ((TimeWindow.new 1 10).processAll [(0, p33), (2, pA)]).content = [(2, pA)]
    ∧ ((TimeWindow.new 1 10).processAll [(0, p33), (2, pA)]).window_state.char_map
        = [(33, 0)]
    ∧ ((TimeWindow.new 1 10).processAll [(2, pA)]).window_state.char_map = [] := by
  have hge : (0 : ℚ) ≥ 1 - 1 := by norm_num
  have hlt : ¬ ((0 : ℚ) ≥ 2 - 1) := by norm_num
  have h1 : (TimeWindow.new 1 10).process_entry 0 pA
      = { window_size := 1, open_space := openSpaceTime 10,
          content := [(0, pA)], window_state := WindowState.new.add pA } := rfl
  have hstep : (TimeWindow.new 1 10).processAll [(0, pA), (1, pA)]
      = { window_size := 1
          open_space := openSpaceTime 10
          content := [(0, pA), (1, pA)]
          window_state := (WindowState.new.add pA).add pA } := by
    show ((TimeWindow.new 1 10).process_entry 0 pA).process_entry 1 pA = _
    rw [h1]
    unfold TimeWindow.process_entry
    dsimp only
    rw [evictLoop, if_pos hge]
    rfl
  have h2 : (TimeWindow.new 1 10).process_entry 0 p33
      = { window_size := 1, open_space := openSpaceTime 10,
          content := [(0, p33)], window_state := WindowState.new.add p33 } := rfl
  have hstep2 : (TimeWindow.new 1 10).processAll [(0, p33), (2, pA)]
      = { window_size := 1
          open_space := openSpaceTime 10
          content := [(2, pA)]
          window_state := ((WindowState.new.add p33).remove p33).add pA } := by
    show ((TimeWindow.new 1 10).process_entry 0 p33).process_entry 2 pA = _
    rw [h2]
    unfold TimeWindow.process_entry
    dsimp only
    rw [evictLoop, if_neg hlt]
    rfl
  rw [hstep, hstep2]
  exact ⟨rfl, by decide, rfl, by decide, by decide⟩

theorem fixed_process_entry_lt (w : FixedWindow) (e : DnsPayload)
    (h : ¬ w.content.length ≥ w.window_size) :
    (w.process_entry e).content = w.content ++ [e]
    ∧ (w.process_entry e).window_state = w.window_state.add e
    ∧ (w.process_entry e).window_size = w.window_size := by
  unfold FixedWindow.process_entry
  rw [if_neg h]
  exact ⟨rfl, rfl, rfl⟩

theorem fixed_process_entry_ge (w : FixedWindow) (e p : DnsPayload)
    (cs : List DnsPayload) (hco : w.content = p :: cs)
    (h : w.content.length ≥ w.window_size) :
    (w.process_entry e).content = cs ++ [e]
    ∧ (w.process_entry e).window_state = (w.window_state.remove p).add e
    ∧ (w.process_entry e).window_size = w.window_size := by
  unfold FixedWindow.process_entry
  rw [if_pos h, hco]
  exact ⟨rfl, rfl, rfl⟩

/-- Invariant of the fixed-window fold: starting from any window whose queue
holds at most `window_size = N ≥ 1` entries and whose state counts exactly the
queued entries, processing a batch leaves exactly the last `N` of
queue-plus-batch in the queue, with the state count still matching. -/
theorem fixedWindow_fold_inv (N : Nat) (hN : 1 ≤ N) :
    ∀ (es : List DnsPayload) (w : FixedWindow),
      w.window_size = N →
      w.content.length ≤ N →
      w.window_state.n_queries = w.content.length →
      (FixedWindow.processAll w es).content
          = (w.content ++ es).drop ((w.content ++ es).length - N)
      ∧ (FixedWindow.processAll w es).window_state.n_queries
          = (FixedWindow.processAll w es).content.length
      ∧ (FixedWindow.processAll w es).window_size = N := by
  intro es
  induction es with
  | nil =>
    intro w hsz hlen hnq
    have hz : w.content.length - N = 0 := by omega
    refine ⟨?_, ?_, ?_⟩
    · simp only [FixedWindow.processAll, List.foldl_nil, List.append_nil, hz,
        List.drop_zero]
    · simpa only [FixedWindow.processAll, List.foldl_nil] using hnq
    · simpa only [FixedWindow.processAll, List.foldl_nil] using hsz
  | cons e rest ih =>
    intro w hsz hlen hnq
    have hall : FixedWindow.processAll w (e :: rest)
        = FixedWindow.processAll (w.process_entry e) rest := rfl
    by_cases hge : w.content.length ≥ w.window_size
    · -- the queue is full (length = N): one eviction from the front
      have hlenN : w.content.length = N := by omega
      have hpos : 0 < w.content.length := by omega
      obtain ⟨p, cs, hco⟩ : ∃ p cs, w.content = p :: cs := by
        cases hco : w.content with
        | nil => rw [hco] at hpos; simp at hpos
        | cons p cs => exact ⟨p, cs, rfl⟩
      have hcs : cs.length + 1 = N := by
        rw [hco] at hlenN
        simpa using hlenN
      obtain ⟨hc1, hc2, hc3⟩ := fixed_process_entry_ge w e p cs hco hge
      have hlen' : (w.process_entry e).content.length ≤ N := by
        rw [hc1]
        simp only [List.length_append, List.length_cons, List.length_nil]
        omega
      have hnq' : (w.process_entry e).window_state.n_queries
          = (w.process_entry e).content.length := by
        rw [hc1, hc2, add_n_queries, remove_n_queries, hnq, hco]
        simp only [List.length_append, List.length_cons, List.length_nil]
        omega
      have hsz' : (w.process_entry e).window_size = N := by rw [hc3, hsz]
      obtain ⟨ih1, ih2, ih3⟩ := ih (w.process_entry e) hsz' hlen' hnq'
      refine ⟨?_, ?_, ?_⟩
      · rw [hall, ih1, hc1, hco]
        have hlist : (cs ++ [e]) ++ rest = cs ++ e :: rest := by
          simp
        have hlist2 : (p :: cs) ++ e :: rest = p :: (cs ++ e :: rest) := by
          simp
        rw [hlist, hlist2]
        have hn1 : (cs ++ e :: rest).length - N = rest.length := by
          simp only [List.length_append, List.length_cons]
          omega
        have hn2 : (p :: (cs ++ e :: rest)).length - N = rest.length + 1 := by
          simp only [List.length_append, List.length_cons]
          omega
        rw [hn1, hn2, List.drop_succ_cons]
      · rw [hall]
        exact ih2
      · rw [hall]
        exact ih3
    · -- the queue is not full: no eviction
      obtain ⟨hc1, hc2, hc3⟩ := fixed_process_entry_lt w e hge
      rw [hsz] at hge
      have hlen' : (w.process_entry e).content.length ≤ N := by
        rw [hc1]
        simp only [List.length_append, List.length_cons, List.length_nil]
        omega
      have hnq' : (w.process_entry e).window_state.n_queries
          = (w.process_entry e).content.length := by
        rw [hc1, hc2, add_n_queries, hnq]
        simp only [List.length_append, List.length_cons, List.length_nil]
      have hsz' : (w.process_entry e).window_size = N := by rw [hc3, hsz]
      obtain ⟨ih1, ih2, ih3⟩ := ih (w.process_entry e) hsz' hlen' hnq'
      refine ⟨?_, ?_, ?_⟩
      · rw [hall, ih1, hc1]
        have hlist : (w.content ++ [e]) ++ rest = w.content ++ e :: rest := by
          simp
        rw [hlist]
      · rw [hall]
        exact ih2
      · rw [hall]
        exact ih3

/-- C4 amended. For a fixed window of size `N ≥ 1` starting empty: the queue
after any batch holds exactly the last `N` entries (so its length never
exceeds `N` and equals `N` after `N + k` insertions, `k ≥ 1`), the aggregate
state's query count equals the queue length (`WindowState::remove` was applied
for each evicted entry), and one more `process_entry` evicts the front entry
if and only if the queue already holds `N` entries. (The original claim's
stronger conjunct — that evicted entries are no longer reflected in the
aggregate state at all — is refuted by the counterexample: `remove` leaves
zero-count histogram keys and can leave a stale `max_label_len`.) -/
theorem C4_fixed_window_eviction (N pd : Nat) (hN : 1 ≤ N) (es : List DnsPayload) :
    (FixedWindow.processAll (FixedWindow.new N pd) es).content
        = es.drop (es.length - N)
    ∧ (FixedWindow.processAll (FixedWindow.new N pd) es).content.length ≤ N
    ∧ (FixedWindow.processAll (FixedWindow.new N pd) es).window_state.n_queries
        = (FixedWindow.processAll (FixedWindow.new N pd) es).content.length
    ∧ (N + 1 ≤ es.length →
        (FixedWindow.processAll (FixedWindow.new N pd) es).content.length = N)
    ∧ ∀ e : DnsPayload,
        ((FixedWindow.processAll (FixedWindow.new N pd) es).process_entry e).content
          = if (FixedWindow.processAll (FixedWindow.new N pd) es).content.length = N
            then (FixedWindow.processAll (FixedWindow.new N pd) es).content.tail ++ [e]
            else (FixedWindow.processAll (FixedWindow.new N pd) es).content ++ [e] := by
  have hc0 : (FixedWindow.new N pd).content = ([] : List DnsPayload) := rfl
  obtain ⟨h1, h2, h3⟩ :=
    fixedWindow_fold_inv N hN es (FixedWindow.new N pd) rfl
      (by rw [hc0]; simp) rfl
  rw [hc0] at h1
  have h1' : (FixedWindow.processAll (FixedWindow.new N pd) es).content
      = es.drop (es.length - N) := by
    simpa using h1
  have hlen : (FixedWindow.processAll (FixedWindow.new N pd) es).content.length
      = es.length - (es.length - N) := by
    rw [h1', List.length_drop]
  refine ⟨h1', by omega, h2, by omega, ?_⟩
  intro e
  by_cases hfull :
      (FixedWindow.processAll (FixedWindow.new N pd) es).content.length = N
  · rw [if_pos hfull]
    have hge : (FixedWindow.processAll (FixedWindow.new N pd) es).content.length
        ≥ (FixedWindow.processAll (FixedWindow.new N pd) es).window_size := by
      rw [h3, hfull]
    have hpos : 0 < (FixedWindow.processAll (FixedWindow.new N pd) es).content.length := by
      omega
    obtain ⟨p, cs, hco⟩ : ∃ p cs,
        (FixedWindow.processAll (FixedWindow.new N pd) es).content = p :: cs := by
      cases hco : (FixedWindow.processAll (FixedWindow.new N pd) es).content with
      | nil => rw [hco] at hpos; simp at hpos
      | cons p cs => exact ⟨p, cs, rfl⟩
    obtain ⟨hc1, _, _⟩ :=
      fixed_process_entry_ge (FixedWindow.processAll (FixedWindow.new N pd) es) e p cs hco hge
    rw [hc1, hco]
    rfl
  · rw [if_neg hfull]
    have hlt : ¬ ((FixedWindow.processAll (FixedWindow.new N pd) es).content.length
        ≥ (FixedWindow.processAll (FixedWindow.new N pd) es).window_size) := by
      rw [h3]
      omega
    exact (fixed_process_entry_lt _ e hlt).1

/-- Witness for C4: a size-2 window fed three payloads keeps exactly the last
two. -/
theorem C4_fixed_window_eviction_witness :
    (FixedWindow.processAll (FixedWindow.new 2 10) [payC, payB, payA]).content
      = [payB, payA] := by
  have h := (C4_fixed_window_eviction 2 10 (by omega) [payC, payB, payA]).1
  simpa using h

/-- C4 counterexample, refuting the claim's conjunct that after `N + k`
insertions the `k` oldest entries are "no longer reflected in the aggregate
state". First, a size-1 window fed the byte-33 payload and then `pA` holds
only `pA`, yet its state's `char_map` still carries the evicted entry's byte
33 as a zero-count key, unlike the state of a window fed only `pA`. Second, a
size-3 window fed payloads with labels of lengths 10, 9, 10 and then 1 evicts
the first 10-byte label and is left with `max_label_len = 9` even though a
10-byte label of a retained entry survives — the evicted entry still shapes
(and here corrupts) the aggregate state. -/
theorem C4_evicted_entry_still_reflected :
    (FixedWindow.processAll (FixedWindow.new 1 10) [p33, pA]).content = [pA]
    ∧ (FixedWindow.processAll (FixedWindow.new 1 10) [p33, pA]).window_state.char_map
        = [(33, 0)]
    ∧ (FixedWindow.processAll (FixedWindow.new 1 10) [pA]).window_state.char_map = []
    ∧ (FixedWindow.processAll (FixedWindow.new 3 10) [payA, payC, payB, pA]).content
        = [payC, payB, pA]
    ∧ (FixedWindow.processAll
          (FixedWindow.new 3 10) [payA, payC, payB, pA]).window_state.max_label_len = 9
    ∧ (FixedWindow.processAll
          (FixedWindow.new 3 10)
          [payA, payC, payB, pA]).window_state.unique_labels.map (fun kv => kv.1.length)
        = [9, 10, 1] :=
  ⟨by decide, by decide, by decide, by decide, by decide, by decide⟩

theorem lastTs_cons_cons (e y : ℚ × DnsPayload) (ys : List (ℚ × DnsPayload)) :
    lastTs (e :: y :: ys) = lastTs (y :: ys) := rfl

theorem lastTs_mem :
    ∀ es : List (ℚ × DnsPayload), es ≠ [] → ∃ x ∈ es, lastTs es = x.1 := by
  intro es
  induction es with
  | nil => intro h; exact absurd rfl h
  | cons e rest ih =>
    intro _
    cases rest with
    | nil => exact ⟨e, List.mem_singleton_self e, rfl⟩
    | cons y ys =>
      obtain ⟨x, hx, hlx⟩ := ih (by simp)
      exact ⟨x, List.mem_cons_of_mem e hx, by rw [lastTs_cons_cons]; exact hlx⟩

/-- The eviction loop keeps exactly the entries with timestamp `≥ minTs`, for
a timestamp-ascending queue (the loop stops at the first in-range entry;
sortedness makes that equal to a filter). -/
theorem evictLoop_content (m : ℚ) :
    ∀ (cs : List (ℚ × DnsPayload)) (s : WindowState),
      cs.Pairwise (fun a b => a.1 ≤ b.1) →
      (evictLoop m cs s).1 = cs.filter (fun c => decide (m ≤ c.1)) := by
  intro cs
  induction cs with
  | nil => intro s _; rfl
  | cons c rest ih =>
    intro s hp
    unfold evictLoop
    by_cases hc : c.1 ≥ m
    · rw [if_pos hc]
      have hall : ∀ x ∈ rest, (fun c => decide (m ≤ c.1)) x = true := by
        intro x hx
        simp only [decide_eq_true_eq]
        exact le_trans hc (List.rel_of_pairwise_cons hp hx)
      rw [List.filter_cons_of_pos (by simpa using hc)]
      rw [List.filter_eq_self.mpr hall]
    · rw [if_neg hc]
      rw [ih (s.remove c.2) (List.Pairwise.of_cons hp)]
      rw [List.filter_cons_of_neg (by simpa using hc)]

/-- Each eviction removes exactly one entry from the state count, so a state
counting its queue keeps doing so through the eviction loop. -/
theorem evictLoop_n_queries (m : ℚ) :
    ∀ (cs : List (ℚ × DnsPayload)) (s : WindowState),
      s.n_queries = cs.length →
      (evictLoop m cs s).2.n_queries = (evictLoop m cs s).1.length := by
  intro cs
  induction cs with
  | nil => intro s h; simpa using h
  | cons c rest ih =>
    intro s h
    unfold evictLoop
    by_cases hc : c.1 ≥ m
    · rw [if_pos hc]
      simpa using h
    · rw [if_neg hc]
      apply ih
      rw [remove_n_queries, h]
      simp

theorem time_process_entry_content (w : TimeWindow) (ts : ℚ) (e : DnsPayload)
    (hp : w.content.Pairwise (fun a b => a.1 ≤ b.1)) :
    (w.process_entry ts e).content
      = w.content.filter (fun c => decide (ts - w.window_size ≤ c.1)) ++ [(ts, e)] := by
  unfold TimeWindow.process_entry
  dsimp only
  rw [evictLoop_content (ts - w.window_size) w.content w.window_state hp]

theorem time_process_entry_n_queries (w : TimeWindow) (ts : ℚ) (e : DnsPayload)
    (hnq : w.window_state.n_queries = w.content.length) :
    (w.process_entry ts e).window_state.n_queries
      = (w.process_entry ts e).content.length := by
  unfold TimeWindow.process_entry
  dsimp only
  rw [add_n_queries, evictLoop_n_queries (ts - w.window_size) w.content w.window_state hnq]
  simp

theorem time_process_entry_window_size (w : TimeWindow) (ts : ℚ) (e : DnsPayload) :
    (w.process_entry ts e).window_size = w.window_size := rfl

theorem time_processAll_cons (w : TimeWindow) (e : ℚ × DnsPayload)
    (rest : List (ℚ × DnsPayload)) :
    w.processAll (e :: rest) = (w.process_entry e.1 e.2).processAll rest := rfl

theorem time_processAll_nil (w : TimeWindow) : w.processAll [] = w := rfl

/-- Invariant of the time-window fold: starting from a window whose
timestamp-ascending queue is counted exactly by its state, and feeding a
timestamp-ascending non-empty batch no earlier than the queue, the resulting
queue holds exactly the entries (of queue plus batch) with timestamp
`≥ lastTs − D`, and the state count matches. -/
theorem timeWindow_fold_inv (D : ℚ) (hD : 0 ≤ D) :
    ∀ (es : List (ℚ × DnsPayload)) (w : TimeWindow),
      w.window_size = D →
      w.content.Pairwise (fun a b => a.1 ≤ b.1) →
      w.window_state.n_queries = w.content.length →
      (∀ x ∈ w.content, ∀ y ∈ es, x.1 ≤ y.1) →
      es.Pairwise (fun a b => a.1 ≤ b.1) →
      es ≠ [] →
      (w.processAll es).content
          = (w.content ++ es).filter (fun c => decide (lastTs es - D ≤ c.1))
      ∧ (w.processAll es).window_state.n_queries = (w.processAll es).content.length := by
  intro es
  induction es with
  | nil => intro w _ _ _ _ _ hne; exact absurd rfl hne
  | cons e rest ih =>
    intro w hsz hpw hnq hcompat hsort _
    have hstep := time_process_entry_content w e.1 e.2 hpw
    rw [hsz] at hstep
    have hnq' := time_process_entry_n_queries w e.1 e.2 hnq
    have hpw' : (w.process_entry e.1 e.2).content.Pairwise (fun a b => a.1 ≤ b.1) := by
      rw [hstep, List.pairwise_append]
      refine ⟨List.Pairwise.sublist (List.filter_sublist _) hpw, by simp, ?_⟩
      intro x hx b hb
      rw [List.mem_singleton] at hb
      subst hb
      exact hcompat x (List.mem_of_mem_filter hx) e (List.mem_cons_self e rest)
    cases rest with
    | nil =>
      refine ⟨?_, ?_⟩
      · rw [time_processAll_cons, time_processAll_nil, hstep]
        have hl : lastTs [e] = e.1 := rfl
        rw [hl, List.filter_append]
        have he : List.filter (fun c => decide (e.1 - D ≤ c.1)) [e] = [e] := by
          simp only [List.filter_cons, List.filter_nil, decide_eq_true_eq]
          rw [if_pos (by linarith)]
        rw [he]
      · rw [time_processAll_cons, time_processAll_nil]
        exact hnq'
    | cons y ys =>
      have hrest_ne : (y :: ys) ≠ [] := by simp
      have hcompat' :
          ∀ x ∈ (w.process_entry e.1 e.2).content, ∀ z ∈ (y :: ys), x.1 ≤ z.1 := by
        intro x hx z hz
        rw [hstep] at hx
        rcases List.mem_append.mp hx with hx1 | hx2
        · exact hcompat x (List.mem_of_mem_filter hx1) z (List.mem_cons_of_mem e hz)
        · rw [List.mem_singleton] at hx2
          subst hx2
          exact List.rel_of_pairwise_cons hsort hz
      obtain ⟨ih1, ih2⟩ := ih (w.process_entry e.1 e.2)
        (by rw [time_process_entry_window_size, hsz])
        hpw' hnq' hcompat' (List.Pairwise.of_cons hsort) hrest_ne
      refine ⟨?_, ?_⟩
      · rw [time_processAll_cons, ih1, hstep, lastTs_cons_cons]
        have hle : e.1 ≤ lastTs (y :: ys) := by
          obtain ⟨x, hx, hlx⟩ := lastTs_mem (y :: ys) hrest_ne
          rw [hlx]
          exact List.rel_of_pairwise_cons hsort hx
        conv_rhs => rw [List.append_cons]
        rw [List.filter_append, List.filter_append, List.filter_append,
          List.filter_append, List.filter_filter]
        have hpp : ∀ x ∈ w.content,
            ((fun c => decide (lastTs (y :: ys) - D ≤ c.1)) x
              && (fun c => decide (e.1 - D ≤ c.1)) x)
            = (fun c => decide (lastTs (y :: ys) - D ≤ c.1)) x := by
          intro x _
          by_cases h2 : lastTs (y :: ys) - D ≤ x.1
          · have h1 : e.1 - D ≤ x.1 := le_trans (by linarith) h2
            simp [h1, h2]
          · simp [h2]
        rw [List.filter_congr hpp]
      · rw [time_processAll_cons]
        exact ih2

/-- C3 amended. For a non-empty, timestamp-ascending entry sequence processed
by a fresh time window of duration `D ≥ 0`: the content queue afterwards holds
exactly the entries with timestamp `≥ lastTs − D` — i.e. an entry with
timestamp `t` is evicted from the queue, with `WindowState::remove` applied to
the state for it, precisely once a later-processed entry has timestamp
strictly greater than `t + D`, and the entry at exactly `t + D` distance is
retained — and the state's query count equals the number of retained entries.
(Field-level exclusion from the aggregate state is deliberately not asserted:
as the counterexample shows, `remove` leaves zero-count histogram keys, and by
C1/C2's finding it can also leave a stale `max_label_len`.) -/
theorem C3_time_window_eviction (D : ℚ) (pd : Nat) (hD : 0 ≤ D)
    (es : List (ℚ × DnsPayload)) (hne : es ≠ [])
    (hsort : es.Pairwise (fun a b => a.1 ≤ b.1)) :
    ((TimeWindow.new D pd).processAll es).content
        = es.filter (fun c => decide (lastTs es - D ≤ c.1))
    ∧ ((TimeWindow.new D pd).processAll es).window_state.n_queries
        = ((TimeWindow.new D pd).processAll es).content.length := by
  obtain ⟨h1, h2⟩ := timeWindow_fold_inv D hD es (TimeWindow.new D pd) rfl
    List.Pairwise.nil rfl
    (fun x hx => absurd hx (List.not_mem_nil x))
    hsort hne
  refine ⟨?_, h2⟩
  rw [h1]
  rfl

/-- Witness for C3 (amended): duration 1, entries at 0, 1 and 3; the filter
keeps exactly the last entry. -/
theorem C3_time_window_eviction_witness :
    ((TimeWindow.new 1 10).processAll [(0, pA), (1, pA), (3, pA)]).content
        = [(0, pA), (1, pA), (3, pA)].filter
            (fun c => decide (lastTs [(0, pA), (1, pA), (3, pA)] - 1 ≤ c.1))
    ∧ ((TimeWindow.new 1 10).processAll
          [(0, pA), (1, pA), (3, pA)]).window_state.n_queries
        = ((TimeWindow.new 1 10).processAll
            [(0, pA), (1, pA), (3, pA)]).content.length :=
  C3_time_window_eviction 1 10 (by norm_num) [(0, pA), (1, pA), (3, pA)] (by simp)
    (by norm_num [List.pairwise_cons])
